import Mathlib

/-
Verification of the `LevelSampler` class from level_replay/level_sampler.py.

The sampler state is embedded as a Lean structure whose mutable numpy arrays
become total functions from indices to exact rationals (the source uses float64;
we use ℚ so that the arithmetic claims can be settled exactly).  The field
names follow the source, except that the source's `partial_seed_scores` /
`partial_seed_steps` arrays and `_partial_update_seed_score` method are
rendered with `pending` in place of the reserved Lean keyword:
  unseen             ↔ self.unseen_seed_weights
  seedScores         ↔ self.seed_scores
  pendingSeedScores  ↔ self.partial_seed_scores   (numActors × numSeeds)
  pendingSeedSteps   ↔ self.partial_seed_steps
  staleness          ↔ self.seed_staleness
  nextSeedIndex      ↔ self.next_seed_index
Configuration fields (strategy, replay_schedule, score_transform, temperature,
eps, rho, nu, alpha, staleness_coef, staleness_transform, staleness_temperature)
are carried verbatim.
-/

structure Sampler where
  seeds : List ℤ
  numActors : ℕ
  strategy : String
  replaySchedule : String
  scoreTransform : String
  temperature : ℚ
  eps : ℚ
  rho : ℚ
  nu : ℚ
  alpha : ℚ
  stalenessCoef : ℚ
  stalenessTransform : String
  stalenessTemperature : ℚ
  unseen : ℕ → ℚ
  seedScores : ℕ → ℚ
  pendingSeedScores : ℕ → ℕ → ℚ
  pendingSeedSteps : ℕ → ℕ → ℕ
  staleness : ℕ → ℚ
  nextSeedIndex : ℕ

/-- Number of seeds: `len(self.seeds)` in the source. -/
def Sampler.numSeeds (st : Sampler) : ℕ := st.seeds.length

/-- The constructor `LevelSampler.__init__`: all score bookkeeping starts at
zero and every seed starts unseen (weight 1). -/
def initSampler (seeds : List ℤ) (numActors : ℕ)
    (strategy replaySchedule scoreTransform : String)
    (temperature eps rho nu alpha stalenessCoef : ℚ)
    (stalenessTransform : String) (stalenessTemperature : ℚ) : Sampler :=
  { seeds := seeds
    numActors := numActors
    strategy := strategy
    replaySchedule := replaySchedule
    scoreTransform := scoreTransform
    temperature := temperature
    eps := eps
    rho := rho
    nu := nu
    alpha := alpha
    stalenessCoef := stalenessCoef
    stalenessTransform := stalenessTransform
    stalenessTemperature := stalenessTemperature
    unseen := fun _ => 1
    seedScores := fun _ => 0
    pendingSeedScores := fun _ _ => 0
    pendingSeedSteps := fun _ _ => 0
    staleness := fun _ => 0
    nextSeedIndex := 0 }

/-- The merge arithmetic of `_partial_update_seed_score`:
`merged_score = partial_score + (score - partial_score)*num_steps/float(running_num_steps)`
with `running_num_steps = partial_num_steps + num_steps`. -/
def mergeScore (p : ℚ) (pn : ℕ) (score : ℚ) (n : ℕ) : ℚ :=
  p + (score - p) * (n : ℚ) / ((pn : ℚ) + (n : ℚ))

/-- `_partial_update_seed_score(actor_index, seed_idx, score, num_steps, done=False)`:
stores the merged score and the running step count back into the pending
(partial) accumulator of `(actor_index, seed_idx)`. -/
def pendingUpdateSeedScore (st : Sampler) (a s : ℕ) (score : ℚ) (n : ℕ) : Sampler :=
  let merged := mergeScore (st.pendingSeedScores a s) (st.pendingSeedSteps a s) score n
  { st with
    pendingSeedScores := fun a' s' => if a' = a ∧ s' = s then merged else st.pendingSeedScores a' s'
    pendingSeedSteps := fun a' s' => if a' = a ∧ s' = s then st.pendingSeedSteps a s + n else st.pendingSeedSteps a' s' }

/-- `update_seed_score(actor_index, seed_idx, score, num_steps)`: merge with
the pending accumulator (the `done=True` branch zeroes the accumulator),
mark the seed as seen, and apply one EMA step with the merged value. -/
def updateSeedScore (st : Sampler) (a s : ℕ) (score : ℚ) (n : ℕ) : Sampler :=
  let merged := mergeScore (st.pendingSeedScores a s) (st.pendingSeedSteps a s) score n
  { st with
    pendingSeedScores := fun a' s' => if a' = a ∧ s' = s then 0 else st.pendingSeedScores a' s'
    pendingSeedSteps := fun a' s' => if a' = a ∧ s' = s then 0 else st.pendingSeedSteps a' s'
    unseen := fun i => if i = s then 0 else st.unseen i
    seedScores := fun i =>
      if i = s then (1 - st.alpha) * st.seedScores i + st.alpha * merged
      else st.seedScores i }

/-- The two `fill(0)` calls closing `after_update`. -/
def clearPending (st : Sampler) : Sampler :=
  { st with pendingSeedScores := fun _ _ => 0, pendingSeedSteps := fun _ _ => 0 }

/-- One iteration of the `after_update` double loop:
`if self.partial_seed_scores[actor_index][seed_idx] != 0: self.update_seed_score(actor_index, seed_idx, 0, 0)`. -/
def flushCell (st : Sampler) (a s : ℕ) : Sampler :=
  if st.pendingSeedScores a s ≠ 0 then updateSeedScore st a s 0 0 else st

/-- The inner `for seed_idx in range(...)` loop of `after_update`, over an
explicit index list (instantiated with `List.range st.numSeeds`). -/
def flushCells (st : Sampler) (a : ℕ) (l : List ℕ) : Sampler :=
  l.foldl (fun acc s => flushCell acc a s) st

/-- One row of the `after_update` flush: all seed indices of one actor. -/
def flushRow (st : Sampler) (a : ℕ) : Sampler :=
  flushCells st a (List.range st.numSeeds)

/-- The outer `for actor_index in range(...)` loop of `after_update`. -/
def flushRows (st : Sampler) (al : List ℕ) : Sampler :=
  al.foldl flushRow st

/-- `after_update()`: flush every nonzero pending accumulator through
`update_seed_score(actor, seed, 0, 0)`, then zero both pending arrays. -/
def afterUpdate (st : Sampler) : Sampler :=
  clearPending (flushRows st (List.range st.numActors))

/-- `_update_staleness(selected_idx)`: when staleness weighting is enabled,
increment every staleness entry, then zero the selected one. -/
def updateStaleness (st : Sampler) (idx : ℕ) : Sampler :=
  if 0 < st.stalenessCoef then
    { st with staleness := fun i => if i = idx then 0 else st.staleness i + 1 }
  else st

/-- `(self.unseen_seed_weights > 0).sum()`. -/
def countUnseen (st : Sampler) : ℕ :=
  ((List.range st.numSeeds).filter (fun s => decide (0 < st.unseen s))).length

/-- `proportion_seen = (len(self.seeds) - num_unseen)/len(self.seeds)`. -/
def proportionSeen (st : Sampler) : ℚ :=
  ((st.numSeeds : ℚ) - (countUnseen st : ℚ)) / (st.numSeeds : ℚ)

/-- Which helper a score-driven `sample()` call invokes. -/
inductive Branch where
  | replay : Branch
  | unseenLevel : Branch
deriving DecidableEq

/-- The replay-scheduling decision of `sample()` for score-driven strategies.
`r` is the value of the `np.random.rand()` draw, made explicit.  The fixed
schedule replays when `proportion_seen >= rho` and
(`rand > nu` or `not proportion_seen < 1.0`); any other schedule string falls
through to the proportionate rule `proportion_seen >= rho and rand < proportion_seen`. -/
def sampleBranch (st : Sampler) (r : ℚ) : Branch :=
  if st.replaySchedule = "fixed" then
    if st.rho ≤ proportionSeen st then
      if st.nu < r ∨ ¬ proportionSeen st < 1 then Branch.replay else Branch.unseenLevel
    else Branch.unseenLevel
  else
    if st.rho ≤ proportionSeen st ∧ r < proportionSeen st then Branch.replay
    else Branch.unseenLevel

/-- Which of the four sampling paths a `sample()` call takes. -/
inductive SampleKind where
  | randomDraw : SampleKind
  | sequentialDraw : SampleKind
  | replayDraw : SampleKind
  | unseenDraw : SampleKind
deriving DecidableEq

/-- The dispatch structure of `sample()`: the `random` and `sequential`
strategies return immediately; every other strategy consults the replay
schedule.  `unseenDraw` means `_sample_unseen_level` is invoked and
`replayDraw` means `_sample_replay_level` is invoked. -/
def sampleKind (st : Sampler) (r : ℚ) : SampleKind :=
  if st.strategy = "random" then SampleKind.randomDraw
  else if st.strategy = "sequential" then SampleKind.sequentialDraw
  else
    match sampleBranch st r with
    | Branch.replay => SampleKind.replayDraw
    | Branch.unseenLevel => SampleKind.unseenDraw

/-- State transition and return value of one `sample()` call.  `r` is the
`np.random.rand()` draw and `idx` the index produced by the
`np.random.choice` draw of whichever helper runs (`random` draw, replay
distribution, or unseen distribution); the sequential path ignores it and
uses the round-robin cursor.  Both `_sample_replay_level` and
`_sample_unseen_level` call `_update_staleness` on the selected index and
return `int(self.seeds[seed_idx])`. -/
def sampleStep (st : Sampler) (r : ℚ) (idx : ℕ) : Sampler × ℤ :=
  if st.strategy = "random" then (st, st.seeds.getD idx 0)
  else if st.strategy = "sequential" then
    ({ st with nextSeedIndex := (st.nextSeedIndex + 1) % st.seeds.length },
      st.seeds.getD st.nextSeedIndex 0)
  else
    match sampleBranch st r with
    | Branch.replay => (updateStaleness st idx, st.seeds.getD idx 0)
    | Branch.unseenLevel => (updateStaleness st idx, st.seeds.getD idx 0)

/-
Weight transforms (`_score_transform`) and `sample_weights`.

The source computes `x ** (1./temperature)` and `np.exp(x/temperature)` in
floating point.  These transcendental routines are abstracted into a
`FloatOps` parameter; every property proved below holds for an arbitrary
choice of the routines, which is exactly the generality of the claims
(they concern masking/normalization, not the numerics of pow/exp).
-/

structure FloatOps where
  rpow : ℚ → ℚ → ℚ
  fexp : ℚ → ℚ

/-- First maximizer of `f` over a list of indices (`np.argmax` returns the
first index attaining the maximum). -/
def argmaxList (f : ℕ → ℚ) : List ℕ → ℕ
  | [] => 0
  | j :: t => t.foldl (fun b i => if f b < f i then i else b) j

/-- `scores.argmax()` over indices `0..n-1`. -/
def argmaxIdx (f : ℕ → ℚ) (n : ℕ) : ℕ :=
  argmaxList f (List.range n)

/-- The index chosen by the `max` transform:
`scores[self.unseen_seed_weights > 0] = -inf` masks unseen seeds to −∞ and
`np.random.choice(np.flatnonzero(np.isclose(scores, scores.max())))` draws a
maximizer of the masked array.  The uniform tie-break among maximizers is
modelled by the first maximizer (the properties proved are independent of
which maximizer is drawn); when every seed is unseen the masked array is all
−∞, every index is a maximizer, and index 0 stands for the draw. -/
def maxSeenIdx (st : Sampler) (scores : ℕ → ℚ) : ℕ :=
  match (List.range st.numSeeds).filter (fun i => decide (st.unseen i ≤ 0)) with
  | [] => 0
  | j :: t => argmaxList scores (j :: t)

/-- Rank of index `i` under `np.flip(scores.argsort())` (rank 1 = highest
score; `argsort` is stable ascending, so after the flip ties are broken
toward the larger index). -/
def rankOf (scores : ℕ → ℚ) (n i : ℕ) : ℕ :=
  1 + ((List.range n).filter
        (fun j => decide (scores i < scores j ∨ (scores j = scores i ∧ i < j)))).length

/-- `_score_transform(transform, temperature, scores)`, value part: the
returned weight vector over indices `0..numSeeds-1`.  An unrecognized
transform name leaves the local `weights` unbound in the source
(`UnboundLocalError`); that is modelled by the empty list.  The in-place
mutation of the argument array performed by the `max` branch is modelled
separately by `scoreTransformScoresAfter`. -/
def scoreTransformW (fo : FloatOps) (st : Sampler) (transform : String)
    (temperature : ℚ) (scores : ℕ → ℚ) : List ℚ :=
  if transform = "constant" then
    (List.range st.numSeeds).map (fun _ => 1)
  else if transform = "max" then
    let mi := maxSeenIdx st scores
    (List.range st.numSeeds).map (fun i => if i = mi then 1 else 0)
  else if transform = "eps_greedy" then
    let mi := argmaxIdx scores st.numSeeds
    (List.range st.numSeeds).map
      (fun i => (if i = mi then 1 - st.eps else 0) + st.eps / (st.numSeeds : ℚ))
  else if transform = "rank" then
    (List.range st.numSeeds).map
      (fun i => 1 / fo.rpow ((rankOf scores st.numSeeds i : ℚ)) (1 / temperature))
  else if transform = "power" then
    let e0 : ℚ := if 0 < st.stalenessCoef then 0 else 1 / 1000
    (List.range st.numSeeds).map (fun i => fo.rpow (scores i + e0) (1 / temperature))
  else if transform = "softmax" then
    (List.range st.numSeeds).map (fun i => fo.fexp (scores i / temperature))
  else []

/-- `_score_transform`, state part: the contents of the array passed as
`scores` after the call.  Under the `max` transform the line
`scores[self.unseen_seed_weights > 0] = -float('inf')` writes through the
view `scores = scores[:]` (basic numpy slicing returns a view, not a copy)
into the caller's array; the written −∞ entries are modelled as `none`.
Every other transform leaves the array untouched. -/
def scoreTransformScoresAfter (st : Sampler) (transform : String)
    (scores : ℕ → ℚ) : List (Option ℚ) :=
  if transform = "max" then
    (List.range st.numSeeds).map
      (fun i => if 0 < st.unseen i then none else some (scores i))
  else
    (List.range st.numSeeds).map (fun i => some (scores i))

/-- The contents of `self.seed_scores` after the `sample_weights()` call
`self._score_transform(self.score_transform, self.temperature, self.seed_scores)`. -/
def sampleWeightsScoresAfter (st : Sampler) : List (Option ℚ) :=
  scoreTransformScoresAfter st st.scoreTransform st.seedScores

/-- `1 - self.unseen_seed_weights` as a vector. -/
def unseenMask (st : Sampler) : List ℚ :=
  (List.range st.numSeeds).map (fun i => 1 - st.unseen i)

/-- The transformed score weights after `weights * (1-self.unseen_seed_weights)`. -/
def maskedScoreW (fo : FloatOps) (st : Sampler) : List ℚ :=
  List.zipWith (· * ·)
    (scoreTransformW fo st st.scoreTransform st.temperature st.seedScores)
    (unseenMask st)

/-- The transformed staleness weights after the same masking. -/
def maskedStalW (fo : FloatOps) (st : Sampler) : List ℚ :=
  List.zipWith (· * ·)
    (scoreTransformW fo st st.stalenessTransform st.stalenessTemperature st.staleness)
    (unseenMask st)

/-- `z = np.sum(weights); if z > 0: weights /= z`. -/
def normalizeIfPos (w : List ℚ) : List ℚ :=
  if 0 < w.sum then w.map (fun x => x / w.sum) else w

/-- `sample_weights()`: transform and mask the score vector, normalize when
the mass is positive, and — when staleness weighting is enabled — mix in the
identically produced staleness weights with coefficient `staleness_coef`. -/
def sampleWeights (fo : FloatOps) (st : Sampler) : List ℚ :=
  let w := normalizeIfPos (maskedScoreW fo st)
  if 0 < st.stalenessCoef then
    let sw := normalizeIfPos (maskedStalW fo st)
    List.zipWith (fun x y => (1 - st.stalenessCoef) * x + st.stalenessCoef * y) w sw
  else w

/-- The uniform distribution `np.ones_like(w)/len(w)` over all seeds. -/
def uniformW (st : Sampler) : List ℚ :=
  (List.range st.numSeeds).map (fun _ => 1 / (st.numSeeds : ℚ))

/-- The distribution `_sample_replay_level` actually draws from:
`sample_weights()`, replaced by the uniform distribution when
`np.isclose(np.sum(sample_weights), 0)` (the tolerance check is modelled as
exact equality with 0). -/
def sampleReplayWeights (fo : FloatOps) (st : Sampler) : List ℚ :=
  let w := sampleWeights fo st
  if w.sum = 0 then uniformW st else w

/-
Score functions and the rollout-update protocol.
-/

/-- `_one_step_td_error(rewards=…, value_preds=…)`:
`td_errors = (rewards[:-1] + value_preds[:max_t-1] - value_preds[1:max_t]).abs()`
followed by `td_errors.abs().mean()` (the second `abs` is a no-op on the
already absolute values, so a single `|·|` is taken); the mean of the empty
tensor produced by a length-1 segment is NaN in the source, which falls
outside the claims and is the junk value `0/0 = 0` here. -/
def oneStepTdError (rewards valuePreds : List ℚ) : ℚ :=
  let maxT := rewards.length
  let tdErrors := List.zipWith (fun x y => |x - y|)
    (List.zipWith (· + ·) (rewards.take (maxT - 1)) (valuePreds.take (maxT - 1)))
    ((valuePreds.drop 1).take (maxT - 1))
  tdErrors.sum / (tdErrors.length : ℚ)

/-- The data `_update_with_rollouts` reads from the `RolloutStorage`
collaborator: `done t a` is `(~(rollouts.masks > 0))[t, a]` and
`levelSeeds t a` is `rollouts.level_seeds[t, a].item()`. -/
structure Rollouts where
  totalSteps : ℕ
  numActors : ℕ
  done : ℕ → ℕ → Bool
  levelSeeds : ℕ → ℕ → ℤ

/-- A segment-scoring function: given the actor index and the half-open
step range `[startT, endT)` of one segment of the batch, produce the scalar
score the configured score function computes from the corresponding tensor
slice (log-softmaxed logits and, when required, returns/rewards/value
estimates).  The tensor computations themselves are policy-network floating
point and are abstracted behind this type; `oneStepTdError` is the exact
instance used by the `one_step_td_error` strategy. -/
abbrev SegScore : Type := ℕ → ℕ → ℕ → ℚ

/-- `self.seed2index[seed]`: position of a seed in the registry; `none`
models the `KeyError` the dict lookup raises for unknown seeds (seed pools
are lists of unique integers, so first position and dict position agree). -/
def seedIdxOf (st : Sampler) (seed : ℤ) : Option ℕ :=
  st.seeds.findIdx? (fun x => decide (x = seed))

/-- `done[:, actor_index].nonzero()[:total_steps, 0]`: the (increasing) list
of step indices at which the actor's episode terminated. -/
def doneSteps (ro : Rollouts) (a : ℕ) : List ℕ :=
  (List.range ro.totalSteps).filter (fun t => ro.done t a)

/-- The `for t in done_steps` loop of `_update_with_rollouts` for one actor:
`break` once `start_t` reaches the end of the batch, skip the carry-over
terminal flag at `t == 0`, and otherwise finalize the segment
`[start_t, t)` through `update_seed_score`. -/
def processDoneSteps (sc : SegScore) (ro : Rollouts) (a : ℕ) :
    List ℕ → Sampler → ℕ → Except String (Sampler × ℕ)
  | [], st, startT => Except.ok (st, startT)
  | t :: rest, st, startT =>
    if ¬ startT < ro.totalSteps then Except.ok (st, startT)
    else if t = 0 then processDoneSteps sc ro a rest st startT
    else
      match seedIdxOf st (ro.levelSeeds startT a) with
      | none => Except.error ("KeyError")
      | some idx =>
          processDoneSteps sc ro a rest
            (updateSeedScore st a idx (sc a startT t) (t - startT)) t

/-- One actor's pass of `_update_with_rollouts`: process the terminal steps,
then hand the trailing unterminated segment (if any) to the partial update. -/
def updateActor (sc : SegScore) (ro : Rollouts) (st : Sampler) (a : ℕ) :
    Except String Sampler :=
  match processDoneSteps sc ro a (doneSteps ro a) st 0 with
  | Except.error e => Except.error e
  | Except.ok (st1, startT) =>
    if startT < ro.totalSteps then
      match seedIdxOf st1 (ro.levelSeeds startT a) with
      | none => Except.error ("KeyError")
      | some idx =>
          Except.ok (pendingUpdateSeedScore st1 a idx
            (sc a startT ro.totalSteps) (ro.totalSteps - startT))
    else Except.ok st1

/-- `_update_with_rollouts(rollouts, score_function)`: every actor in turn. -/
def updateWithRolloutsAux (sc : SegScore) (ro : Rollouts) (st : Sampler) :
    Except String Sampler :=
  (List.range ro.numActors).foldlM (fun acc a => updateActor sc ro acc a) st

/-- The strategy names `update_with_rollouts` dispatches to a score function. -/
def supportedStrategies : List String :=
  ["policy_entropy", "least_confidence", "min_margin", "gae", "value_l1",
    "one_step_td_error"]

/-- `update_with_rollouts(rollouts)`: return immediately for the `random`
strategy, dispatch a known strategy name to its score function (supplied
here as the family `sc`), and raise
`ValueError(f'Unsupported strategy, ...')` otherwise. -/
def updateWithRollouts (st : Sampler) (sc : String → SegScore) (ro : Rollouts) :
    Except String Sampler :=
  if st.strategy = "random" then Except.ok st
  else if st.strategy ∈ supportedStrategies then
    updateWithRolloutsAux (sc st.strategy) ro st
  else Except.error ("Unsupported strategy, " ++ st.strategy)

/-
A trace model of the ledger-mutating operations, for the lifecycle claims:
`update_with_rollouts` contributes `finalize` (completed segment, through
`update_seed_score`) and `pendingUp` (trailing partial segment) events,
`after_update()` is `afterUp`, and a `sample()` call is `sampleOp` with its
two random draws made explicit.
-/

inductive LedgerOp where
  | finalize : ℕ → ℕ → ℚ → ℕ → LedgerOp
  | pendingUp : ℕ → ℕ → ℚ → ℕ → LedgerOp
  | afterUp : LedgerOp
  | sampleOp : ℚ → ℕ → LedgerOp
deriving DecidableEq

/-- State effect of one ledger operation. -/
def applyOp (st : Sampler) : LedgerOp → Sampler
  | LedgerOp.finalize a s score n => updateSeedScore st a s score n
  | LedgerOp.pendingUp a s score n => pendingUpdateSeedScore st a s score n
  | LedgerOp.afterUp => afterUpdate st
  | LedgerOp.sampleOp r idx => (sampleStep st r idx).1

/-- Run a trace of ledger operations. -/
def runOps (st : Sampler) (ops : List LedgerOp) : Sampler :=
  ops.foldl applyOp st

/-- Whether an operation is the finalization of a completed episode on
seed index `s` — the only event the spec allows to clear `unseen[s]`. -/
def completesEpisode (s : ℕ) : LedgerOp → Bool
  | LedgerOp.finalize _ s' _ _ => decide (s' = s)
  | _ => false

/-- Whether one operation, applied in state `st`, clears `unseen[s]`:
a finalization of seed `s`, or an `after_update` while some actor holds a
nonzero pending (partial) score for seed `s`. -/
def opClears (st : Sampler) (s : ℕ) : LedgerOp → Bool
  | LedgerOp.finalize _ s' _ _ => decide (s' = s)
  | LedgerOp.pendingUp _ _ _ _ => false
  | LedgerOp.afterUp =>
      (List.range st.numActors).any (fun a => decide (st.pendingSeedScores a s ≠ 0))
  | LedgerOp.sampleOp _ _ => false

/-- Whether some operation of the trace clears `unseen[s]`, evaluated along
the run. -/
def everClears (st : Sampler) (s : ℕ) : List LedgerOp → Bool
  | [] => false
  | op :: rest => opClears st s op || everClears (applyOp st op) s rest

/-
The accumulator view of repeated partial updates, for the merge claim.
-/

/-- One partial update seen from the `(actor, seed)` accumulator cell:
exactly the `done=False` branch of `_partial_update_seed_score`.  A segment
is a pair (score, step count). -/
def mergeStep (acc : ℚ × ℕ) (sg : ℚ × ℕ) : ℚ × ℕ :=
  (mergeScore acc.1 acc.2 sg.1 sg.2, acc.2 + sg.2)

/-- `Σ nᵢ·sᵢ` over the segments. -/
def segWeightedSum (segs : List (ℚ × ℕ)) : ℚ :=
  (segs.map (fun sg => sg.1 * (sg.2 : ℚ))).sum

/-- `Σ nᵢ` over the segments. -/
def segStepSum (segs : List (ℚ × ℕ)) : ℕ :=
  (segs.map (fun sg => sg.2)).sum

/-- Apply a sequence of partial updates for one `(actor, seed)` pair. -/
def runPendingUpdates (st : Sampler) (a s : ℕ) (segs : List (ℚ × ℕ)) : Sampler :=
  segs.foldl (fun acc sg => pendingUpdateSeedScore acc a s sg.1 sg.2) st

/-- A fixed reference configuration used by concrete witnesses. -/
def baseSampler : Sampler :=
  initSampler [0] 1 "value_l1" "fixed" "power" 1 (1/20) (1/5) (1/2) 1 0 "power" 1

/-
Theorems.
-/

lemma runPendingUpdates_cell (a s : ℕ) :
    ∀ (segs : List (ℚ × ℕ)) (st : Sampler),
    ((runPendingUpdates st a s segs).pendingSeedScores a s,
      (runPendingUpdates st a s segs).pendingSeedSteps a s)
      = segs.foldl mergeStep (st.pendingSeedScores a s, st.pendingSeedSteps a s) := by
  intro segs
  induction segs with
  | nil => intro st; rfl
  | cons sg t ih =>
    intro st
    have h1 : runPendingUpdates st a s (sg :: t)
        = runPendingUpdates (pendingUpdateSeedScore st a s sg.1 sg.2) a s t := rfl
    rw [h1, ih]
    simp [pendingUpdateSeedScore, mergeStep]

lemma mergeFold_mul :
    ∀ (segs : List (ℚ × ℕ)) (p : ℚ) (n : ℕ), (∀ sg ∈ segs, 1 ≤ sg.2) →
    (segs.foldl mergeStep (p, n)).1 * ((n : ℚ) + (segStepSum segs : ℚ))
      = p * (n : ℚ) + segWeightedSum segs := by
  intro segs
  induction segs with
  | nil => intro p n _; simp [segStepSum, segWeightedSum]
  | cons sg t ih =>
    intro p n h
    have hm : 1 ≤ sg.2 := h sg (List.mem_cons_self sg t)
    have ht : ∀ x ∈ t, 1 ≤ x.2 := fun x hx => h x (List.mem_cons_of_mem _ hx)
    have hX : ((n : ℚ) + (sg.2 : ℚ)) ≠ 0 := by
      have h1 : (1 : ℚ) ≤ (sg.2 : ℚ) := by exact_mod_cast hm
      have h2 : (0 : ℚ) ≤ (n : ℚ) := by positivity
      nlinarith
    have key : mergeScore p n sg.1 sg.2 * ((n : ℚ) + (sg.2 : ℚ))
        = p * (n : ℚ) + sg.1 * (sg.2 : ℚ) := by
      field_simp [mergeScore]
      ring
    have hfold : ((sg :: t).foldl mergeStep (p, n))
        = t.foldl mergeStep (mergeScore p n sg.1 sg.2, n + sg.2) := rfl
    have hs : segStepSum (sg :: t) = sg.2 + segStepSum t := by
      simp [segStepSum]
    have hw : segWeightedSum (sg :: t) = sg.1 * (sg.2 : ℚ) + segWeightedSum t := by
      simp [segWeightedSum]
    rw [hfold, hs, hw]
    have hcast : (n : ℚ) + ((sg.2 + segStepSum t : ℕ) : ℚ)
        = (((n + sg.2 : ℕ)) : ℚ) + ((segStepSum t : ℕ) : ℚ) := by
      push_cast
      ring
    rw [hcast, ih _ _ ht]
    have hc2 : (((n + sg.2 : ℕ)) : ℚ) = (n : ℚ) + (sg.2 : ℚ) := by push_cast; ring
    rw [hc2]
    linarith [key]

/-- Claim C1: starting from the (0, 0) accumulator, merging any sequence of
segment updates with step counts ≥ 1 through `_partial_update_seed_score`
yields exactly the weighted mean `Σ(nᵢ·sᵢ)/Σnᵢ` of the concatenated
segments. -/
theorem c1_merge_weighted_mean (st : Sampler) (a s : ℕ) (segs : List (ℚ × ℕ))
    (hne : segs ≠ []) (hsteps : ∀ sg ∈ segs, 1 ≤ sg.2)
    (h0 : st.pendingSeedScores a s = 0) (h0' : st.pendingSeedSteps a s = 0) :
    (runPendingUpdates st a s segs).pendingSeedScores a s
      = segWeightedSum segs / (segStepSum segs : ℚ) := by
  have hcell := runPendingUpdates_cell a s segs st
  have hfst := congrArg Prod.fst hcell
  simp only [h0, h0'] at hfst
  have hsum : 0 < segStepSum segs := by
    cases segs with
    | nil => exact absurd rfl hne
    | cons sg t =>
      have h1 : 1 ≤ sg.2 := hsteps sg (List.mem_cons_self sg t)
      simp only [segStepSum, List.map_cons, List.sum_cons]
      omega
  have hS : ((segStepSum segs : ℕ) : ℚ) ≠ 0 := by
    exact_mod_cast hsum.ne'
  have h2 : (segs.foldl mergeStep ((0 : ℚ), (0 : ℕ))).1 * ((segStepSum segs : ℕ) : ℚ)
      = segWeightedSum segs := by
    simpa using mergeFold_mul segs 0 0 hsteps
  rw [hfst, eq_div_iff hS]
  exact h2

/-- Witness for C1 at the concrete segment sequence (2, 3 steps), (1, 5 steps):
the merged value is 11/8. -/
theorem c1_merge_weighted_mean_witness :
    (runPendingUpdates baseSampler 0 0 [(2, 3), (1, 5)]).pendingSeedScores 0 0
      = segWeightedSum [(2, 3), (1, 5)] / (segStepSum [(2, 3), (1, 5)] : ℚ) :=
  c1_merge_weighted_mean baseSampler 0 0 [(2, 3), (1, 5)] (by decide) (by decide) rfl rfl

lemma sampleBranch_fixed_replay_iff (st : Sampler) (r : ℚ)
    (hsched : st.replaySchedule = "fixed") :
    sampleBranch st r = Branch.replay
      ↔ st.rho ≤ proportionSeen st ∧ (st.nu < r ∨ 1 ≤ proportionSeen st) := by
  unfold sampleBranch
  rw [if_pos hsched]
  by_cases hrho : st.rho ≤ proportionSeen st
  · rw [if_pos hrho]
    by_cases hcond : st.nu < r ∨ ¬ proportionSeen st < 1
    · rw [if_pos hcond]
      simp only [not_lt] at hcond
      simp [hrho, hcond]
    · rw [if_neg hcond]
      push_neg at hcond
      constructor
      · intro hk
        exact absurd hk (by simp)
      · rintro ⟨-, hor⟩
        rcases hor with hnu | hps
        · exact absurd hnu (not_lt.mpr hcond.1)
        · exact absurd hps (not_le.mpr hcond.2)
  · rw [if_neg hrho]
    simp [hrho]

/-- Claim C4: with the fixed replay schedule and a score-driven strategy,
`sample()` invokes the replay path exactly when `proportion_seen ≥ ρ` and
(`r > ν` or `proportion_seen ≥ 1`); in every other case — in particular
whenever `proportion_seen < ρ` — it samples an unseen level. -/
theorem c4_fixed_schedule_replay_iff (st : Sampler) (r : ℚ)
    (h1 : st.strategy ≠ "random") (h2 : st.strategy ≠ "sequential")
    (hsched : st.replaySchedule = "fixed") :
    (sampleKind st r = SampleKind.replayDraw
      ↔ st.rho ≤ proportionSeen st ∧ (st.nu < r ∨ 1 ≤ proportionSeen st)) ∧
    (sampleKind st r = SampleKind.unseenDraw
      ↔ ¬ (st.rho ≤ proportionSeen st ∧ (st.nu < r ∨ 1 ≤ proportionSeen st))) := by
  have hbr := sampleBranch_fixed_replay_iff st r hsched
  have hk : sampleKind st r
      = match sampleBranch st r with
        | Branch.replay => SampleKind.replayDraw
        | Branch.unseenLevel => SampleKind.unseenDraw := by
    unfold sampleKind
    rw [if_neg h1, if_neg h2]
  rw [hk]
  cases hb : sampleBranch st r
  · rw [hb] at hbr
    simp only [true_iff] at hbr
    constructor
    · simp [hbr]
    · simp [hbr]
  · rw [hb] at hbr
    constructor
    · constructor
      · intro hx
        exact absurd hx (by simp)
      · intro hA
        exact absurd (hbr.mpr hA) (by simp)
    · constructor
      · intro _
        intro hA
        exact absurd (hbr.mpr hA) (by simp)
      · intro _
        rfl

/-- A 5-seed state with exactly one seen seed, the scenario of spec §8.6:
`proportion_seen = 0.2 = ρ`. -/
def fiveSeedState : Sampler :=
  { baseSampler with seeds := [0, 1, 2, 3, 4], unseen := fun i => if i = 0 then 0 else 1 }

/-- Witness for C4: in the spec's boundary scenario (ρ = 0.2, ν = 0.5,
5 seeds, 1 seen, draw r = 0.9 > ν) the replay path is taken. -/
theorem c4_fixed_schedule_replay_iff_witness :
    sampleKind fiveSeedState (9/10) = SampleKind.replayDraw := by
  have hc : countUnseen fiveSeedState = 4 := by decide
  have hp : proportionSeen fiveSeedState = 1/5 := by
    unfold proportionSeen Sampler.numSeeds
    rw [hc]
    norm_num [fiveSeedState, baseSampler, initSampler]
  apply (c4_fixed_schedule_replay_iff fiveSeedState (9/10) (by decide) (by decide) rfl).1.mpr
  constructor
  · rw [hp]
    norm_num [fiveSeedState, baseSampler, initSampler]
  · left
    norm_num [fiveSeedState, baseSampler, initSampler]

/-- Claim C5: once every seed has been seen (`unseen` all-zero), a
score-driven `sample()` never invokes `_sample_unseen_level`, under both
replay schedules and for every value of the uniform draw (ρ is a proportion
threshold, hence ≤ 1, and `np.random.rand()` lies in [0, 1)). -/
theorem c5_unseen_exhaustion (st : Sampler) (r : ℚ)
    (h1 : st.strategy ≠ "random") (h2 : st.strategy ≠ "sequential")
    (hall : ∀ s < st.numSeeds, st.unseen s = 0)
    (hN : 0 < st.numSeeds) (hrho : st.rho ≤ 1) (_hr0 : 0 ≤ r) (hr1 : r < 1) :
    sampleKind st r ≠ SampleKind.unseenDraw := by
  have hcount : countUnseen st = 0 := by
    unfold countUnseen
    rw [List.length_eq_zero, List.filter_eq_nil_iff]
    intro a ha
    have haN : a < st.numSeeds := List.mem_range.mp ha
    simp [hall a haN]
  have hps : proportionSeen st = 1 := by
    unfold proportionSeen
    rw [hcount]
    have hne : ((st.numSeeds : ℚ)) ≠ 0 := by exact_mod_cast hN.ne'
    field_simp
  unfold sampleKind sampleBranch
  rw [if_neg h1, if_neg h2]
  by_cases hsched : st.replaySchedule = "fixed"
  · rw [if_pos hsched, hps, if_pos hrho, if_pos (Or.inr (lt_irrefl 1))]
    simp
  · rw [if_neg hsched, hps, if_pos ⟨hrho, hr1⟩]
    simp

/-- The all-seen variant of the 5-seed state. -/
def allSeenState : Sampler :=
  { fiveSeedState with unseen := fun _ => 0 }

/-- Witness for C5 at a concrete all-seen state and draw. -/
theorem c5_unseen_exhaustion_witness :
    sampleKind allSeenState (3/4) ≠ SampleKind.unseenDraw :=
  c5_unseen_exhaustion allSeenState (3/4) (by decide) (by decide) (by decide)
    (by decide)
    (by norm_num [allSeenState, fiveSeedState, baseSampler, initSampler])
    (by norm_num) (by norm_num)

/-- Claim C8 (amended): for score-driven strategies with staleness weighting
enabled, any `sample()` call zeroes the selected index's staleness and
increments every other index's staleness by exactly 1 (so every other
previously-nonzero value strictly increases by 1); the `random` and
`sequential` strategies, by contrast, return before `_update_staleness`. -/
theorem c8_staleness_reset_amended (st : Sampler) (r : ℚ) (idx : ℕ)
    (hc : 0 < st.stalenessCoef)
    (h1 : st.strategy ≠ "random") (h2 : st.strategy ≠ "sequential") :
    (sampleStep st r idx).1.staleness idx = 0 ∧
    ∀ j, j ≠ idx → (sampleStep st r idx).1.staleness j = st.staleness j + 1 := by
  unfold sampleStep
  rw [if_neg h1, if_neg h2]
  cases hb : sampleBranch st r
  all_goals
    refine ⟨?_, fun j hj => ?_⟩
    · simp [updateStaleness, hc]
    · simp [updateStaleness, hc, hj]

/-- A score-driven state with staleness weighting enabled and uniform
staleness 7. -/
def staleOnState : Sampler :=
  { fiveSeedState with stalenessCoef := 1/2, staleness := fun _ => 7 }

/-- Witness for C8 (amended) at a concrete state: selecting index 1 zeroes
its staleness and bumps index 0 from 7 to 8. -/
theorem c8_staleness_reset_amended_witness :
    (sampleStep staleOnState (3/4) 1).1.staleness 1 = 0 ∧
    (sampleStep staleOnState (3/4) 1).1.staleness 0 = staleOnState.staleness 0 + 1 := by
  have hc : 0 < staleOnState.stalenessCoef := by
    norm_num [staleOnState, fiveSeedState, baseSampler, initSampler]
  exact ⟨(c8_staleness_reset_amended staleOnState (3/4) 1 hc (by decide) (by decide)).1,
    (c8_staleness_reset_amended staleOnState (3/4) 1 hc (by decide) (by decide)).2
      0 (by decide)⟩

/-- A `random`-strategy state with staleness weighting enabled and nonzero
staleness everywhere. -/
def randomStaleState : Sampler :=
  { baseSampler with strategy := "random", stalenessCoef := 1/2, staleness := fun _ => 5 }

/-- Counterexample for C8 as stated: with strategy `random` and
staleness_coef = 1/2 > 0, `sample()` returns seed 0 (the selected level) but
leaves its staleness at 5 ≠ 0 — `_update_staleness` is never reached. -/
theorem c8_staleness_reset_cex :
    0 < randomStaleState.stalenessCoef ∧
    (sampleStep randomStaleState 0 0).2 = 0 ∧
    (sampleStep randomStaleState 0 0).1.staleness 0 = 5 ∧
    (sampleStep randomStaleState 0 0).1.staleness 0 ≠ 0 := by
  refine ⟨by norm_num [randomStaleState, baseSampler, initSampler], ?_, ?_, ?_⟩ <;>
    simp [sampleStep, randomStaleState, baseSampler, initSampler]

/-- Claim C10: with the `random` strategy, `update_with_rollouts` returns
immediately and leaves the whole sampler state unchanged. -/
theorem c10_random_update_noop (st : Sampler) (sc : String → SegScore)
    (ro : Rollouts) (h : st.strategy = "random") :
    updateWithRollouts st sc ro = Except.ok st := by
  simp [updateWithRollouts, h]

/-- A rollout batch with no terminations. -/
def trivialRollouts : Rollouts :=
  { totalSteps := 2, numActors := 1, done := fun _ _ => false,
    levelSeeds := fun _ _ => 0 }

/-- The zero segment-scoring family. -/
def zeroSegScore : String → SegScore := fun _ _ _ _ => 0

/-- Witness for C10 at a concrete `random`-strategy state and batch. -/
theorem c10_random_update_noop_witness :
    updateWithRollouts randomStaleState zeroSegScore trivialRollouts
      = Except.ok randomStaleState :=
  c10_random_update_noop randomStaleState zeroSegScore trivialRollouts rfl

/-- The state exhibiting the `max`-transform aliasing bug: two seeds, the
first still unseen, scores all zero. -/
def maxBugState : Sampler :=
  { baseSampler with
    seeds := [0, 1]
    scoreTransform := "max"
    unseen := fun i => if i = 0 then 1 else 0 }

/-- Claim C3 (code bug evidence): under the `max` score transform,
`sample_weights()` does NOT leave `seed_scores` unchanged — the masking line
writes −∞ (here `none`) through the `scores[:]` view into `seed_scores[0]`
for the unseen seed 0. -/
theorem c3_max_transform_mutates_seed_scores :
    sampleWeightsScoresAfter maxBugState
        ≠ (List.range maxBugState.numSeeds).map
            (fun i => some (maxBugState.seedScores i)) ∧
    sampleWeightsScoresAfter maxBugState
      = [none, some (maxBugState.seedScores 1)] := by
  constructor <;> decide

lemma listRangeMapSum (f : ℕ → ℚ) : ∀ n, ((List.range n).map f).sum = ∑ t in Finset.range n, f t := by
  intro n
  induction n with
  | zero => simp
  | succ m ih =>
    rw [List.range_succ, List.map_append, List.sum_append, Finset.sum_range_succ, ih]
    simp

/-- Claim C9: for a segment of length T ≥ 2 with rewards `r[0..T-1]` and
value estimates `v[0..T-1]`, `_one_step_td_error` returns the mean over
`t ∈ {0..T-2}` of `|r[t] + v[t] - v[t+1]|`. -/
theorem c9_one_step_td_error_mean (rewards valuePreds : List ℚ) (T : ℕ)
    (hT : 2 ≤ T) (hr : rewards.length = T) (hv : valuePreds.length = T) :
    oneStepTdError rewards valuePreds
      = (∑ t in Finset.range (T - 1),
          |rewards.getD t 0 + valuePreds.getD t 0 - valuePreds.getD (t + 1) 0|)
        / ((T - 1 : ℕ) : ℚ) := by
  have hli : List.zipWith (fun x y => |x - y|)
      (List.zipWith (· + ·) (rewards.take (rewards.length - 1))
        (valuePreds.take (rewards.length - 1)))
      ((valuePreds.drop 1).take (rewards.length - 1))
      = (List.range (T - 1)).map
          (fun t => |rewards.getD t 0 + valuePreds.getD t 0 - valuePreds.getD (t + 1) 0|) := by
    apply List.ext_getElem
    · simp [hr, hv]
    · intro i h1 h2
      have hi : i < T - 1 := by
        simpa using h2
      have hiT : i < T := by omega
      have hi1 : i + 1 < T := by omega
      rw [List.getElem_zipWith, List.getElem_zipWith, List.getElem_take,
        List.getElem_take, List.getElem_take, List.getElem_drop,
        List.getElem_map, List.getElem_range]
      rw [List.getD_eq_getElem rewards 0 (by omega), List.getD_eq_getElem valuePreds 0 (by omega),
        List.getD_eq_getElem valuePreds 0 (by omega)]
      simp [Nat.add_comm]
  simp only [oneStepTdError]
  rw [hli, listRangeMapSum]
  simp

/-- Witness for C9: rewards [1, 2], value estimates [0, 2], T = 2 give
mean TD error |1 + 0 - 2| / 1 = 1. -/
theorem c9_one_step_td_error_mean_witness : oneStepTdError [1, 2] [0, 2] = 1 := by
  have h := c9_one_step_td_error_mean [1, 2] [0, 2] 2 (by norm_num) rfl rfl
  rw [h]
  norm_num [Finset.sum_range_succ]

lemma sum_map_div (l : List ℚ) (z : ℚ) : (l.map (fun x => x / z)).sum = l.sum / z := by
  induction l with
  | nil => simp
  | cons x t ih => simp [ih, add_div]

lemma normalizeIfPos_sum (w : List ℚ) (h : 0 < w.sum) : (normalizeIfPos w).sum = 1 := by
  unfold normalizeIfPos
  rw [if_pos h, sum_map_div, div_self h.ne']

lemma normalizeIfPos_length (w : List ℚ) : (normalizeIfPos w).length = w.length := by
  unfold normalizeIfPos
  split <;> simp

lemma zipComb_sum (c : ℚ) : ∀ (w sw : List ℚ), w.length = sw.length →
    (List.zipWith (fun x y => (1 - c) * x + c * y) w sw).sum
      = (1 - c) * w.sum + c * sw.sum := by
  intro w
  induction w with
  | nil =>
    intro sw h
    cases sw with
    | nil => simp
    | cons y u => simp at h
  | cons x t ih =>
    intro sw h
    cases sw with
    | nil => simp at h
    | cons y u =>
      simp only [List.zipWith_cons_cons, List.sum_cons]
      have h' : t.length = u.length := by simpa using h
      rw [ih u h']
      ring

lemma listMapConstSum {α : Type} (l : List α) (c : ℚ) :
    (l.map (fun _ => c)).sum = (l.length : ℚ) * c := by
  induction l with
  | nil => simp
  | cons x t ih =>
    simp only [List.map_cons, List.sum_cons, List.length_cons, ih]
    push_cast
    ring

lemma scoreTransformW_length_cases (fo : FloatOps) (st : Sampler) (tr : String)
    (temp : ℚ) (sc : ℕ → ℚ) :
    (scoreTransformW fo st tr temp sc).length = st.numSeeds
      ∨ scoreTransformW fo st tr temp sc = [] := by
  unfold scoreTransformW
  split_ifs <;> simp

lemma unseenMask_length (st : Sampler) : (unseenMask st).length = st.numSeeds := by
  simp [unseenMask]

lemma maskedW_length (tw : List ℚ) (st : Sampler)
    (hcases : tw.length = st.numSeeds ∨ tw = [])
    (h : 0 < (List.zipWith (· * ·) tw (unseenMask st)).sum) :
    (List.zipWith (· * ·) tw (unseenMask st)).length = st.numSeeds := by
  rcases hcases with hl | he
  · rw [List.length_zipWith, hl, unseenMask_length]
    simp
  · rw [he] at h
    simp at h

lemma maskedScoreW_length (fo : FloatOps) (st : Sampler)
    (h : 0 < (maskedScoreW fo st).sum) : (maskedScoreW fo st).length = st.numSeeds :=
  maskedW_length _ st
    (scoreTransformW_length_cases fo st st.scoreTransform st.temperature st.seedScores) h

lemma maskedStalW_length (fo : FloatOps) (st : Sampler)
    (h : 0 < (maskedStalW fo st).sum) : (maskedStalW fo st).length = st.numSeeds :=
  maskedW_length _ st
    (scoreTransformW_length_cases fo st st.stalenessTransform st.stalenessTemperature
      st.staleness) h

/-- Claim C2 (amended): when the masked transformed score weights have
positive total mass — and, if staleness weighting is enabled, so do the
masked staleness weights — `sample_weights()` sums to exactly 1; when the
returned weights sum to zero, `sample_weights()` itself returns the
(all-zero) unnormalized vector and the uniform fallback happens inside
`_sample_replay_level`, whose sampling distribution then sums to 1. -/
theorem c2_sample_weights_sum_amended (fo : FloatOps) (st : Sampler) :
    (0 < (maskedScoreW fo st).sum →
      (0 < st.stalenessCoef → 0 < (maskedStalW fo st).sum) →
      (sampleWeights fo st).sum = 1) ∧
    ((sampleWeights fo st).sum = 0 → 0 < st.numSeeds →
      sampleReplayWeights fo st = uniformW st ∧ (uniformW st).sum = 1) := by
  have hw : sampleWeights fo st
      = if 0 < st.stalenessCoef then
          List.zipWith
            (fun x y => (1 - st.stalenessCoef) * x + st.stalenessCoef * y)
            (normalizeIfPos (maskedScoreW fo st)) (normalizeIfPos (maskedStalW fo st))
        else normalizeIfPos (maskedScoreW fo st) := rfl
  have hrw : sampleReplayWeights fo st
      = if (sampleWeights fo st).sum = 0 then uniformW st else sampleWeights fo st := rfl
  have huni : 0 < st.numSeeds → (uniformW st).sum = 1 := by
    intro hN
    unfold uniformW
    rw [listMapConstSum, List.length_range]
    have hne : ((st.numSeeds : ℚ)) ≠ 0 := by exact_mod_cast hN.ne'
    field_simp
  constructor
  · intro hz hz2
    rw [hw]
    by_cases hc : 0 < st.stalenessCoef
    · rw [if_pos hc]
      have h1 : (normalizeIfPos (maskedScoreW fo st)).length = st.numSeeds := by
        rw [normalizeIfPos_length]
        exact maskedScoreW_length fo st hz
      have h2 : (normalizeIfPos (maskedStalW fo st)).length = st.numSeeds := by
        rw [normalizeIfPos_length]
        exact maskedStalW_length fo st (hz2 hc)
      rw [zipComb_sum _ _ _ (h1.trans h2.symm)]
      rw [normalizeIfPos_sum _ hz, normalizeIfPos_sum _ (hz2 hc)]
      ring
    · rw [if_neg hc]
      exact normalizeIfPos_sum _ hz
  · intro h0 hN
    refine ⟨?_, huni hN⟩
    rw [hrw, if_pos h0]

/-- Identity stand-ins for the abstracted floating-point routines, used in
concrete witnesses with the `constant` transform (which consults neither). -/
def idFloatOps : FloatOps := { rpow := fun x _ => x, fexp := fun x => x }

/-- A two-seed state, both seeds unseen, `constant` transform, staleness off. -/
def allUnseenState : Sampler :=
  { baseSampler with
    seeds := [0, 1]
    scoreTransform := "constant"
    unseen := fun _ => 1 }

/-- Counterexample for C2 as stated: with every seed unseen, the masked
weights are all zero and `sample_weights()` returns the all-zero vector —
summing to 0, not 1, and not the uniform distribution. -/
theorem c2_sample_weights_cex :
    sampleWeights idFloatOps allUnseenState = [0, 0] ∧
    (sampleWeights idFloatOps allUnseenState).sum ≠ 1 := by
  have h : sampleWeights idFloatOps allUnseenState = [0, 0] := by
    norm_num [sampleWeights, normalizeIfPos, maskedScoreW, scoreTransformW, unseenMask,
      allUnseenState, baseSampler, initSampler, Sampler.numSeeds, List.range_succ]
  refine ⟨h, ?_⟩
  rw [h]
  norm_num

/-- A two-seed state with one seen seed, `constant` transform, staleness off. -/
def oneSeenState : Sampler :=
  { baseSampler with
    seeds := [0, 1]
    scoreTransform := "constant"
    unseen := fun i => if i = 0 then 0 else 1 }

/-- Witness for C2 (amended): with positive masked mass the weights sum to 1,
and in the all-masked degenerate state the uniform fallback is applied inside
`_sample_replay_level`. -/
theorem c2_sample_weights_sum_amended_witness :
    (sampleWeights idFloatOps oneSeenState).sum = 1 ∧
    sampleReplayWeights idFloatOps allUnseenState = uniformW allUnseenState := by
  constructor
  · apply (c2_sample_weights_sum_amended idFloatOps oneSeenState).1
    · norm_num [maskedScoreW, scoreTransformW, unseenMask, oneSeenState, baseSampler,
        initSampler, Sampler.numSeeds, List.range_succ]
    · intro hc
      exact absurd hc (by norm_num [oneSeenState, baseSampler, initSampler])
  · have h0 : (sampleWeights idFloatOps allUnseenState).sum = 0 := by
      norm_num [sampleWeights, normalizeIfPos, maskedScoreW, scoreTransformW, unseenMask,
        allUnseenState, baseSampler, initSampler, Sampler.numSeeds, List.range_succ]
    exact ((c2_sample_weights_sum_amended idFloatOps allUnseenState).2 h0 (by decide)).1

lemma mergeScore_zero (p : ℚ) (pn : ℕ) : mergeScore p pn 0 0 = p := by
  simp [mergeScore]

lemma updateSeedScore_pend (st : Sampler) (b t : ℕ) (sc : ℚ) (n : ℕ) (a s : ℕ) :
    (updateSeedScore st b t sc n).pendingSeedScores a s
      = if a = b ∧ s = t then 0 else st.pendingSeedScores a s := rfl

lemma updateSeedScore_unseen (st : Sampler) (b t : ℕ) (sc : ℚ) (n : ℕ) (i : ℕ) :
    (updateSeedScore st b t sc n).unseen i = if i = t then 0 else st.unseen i := rfl

lemma updateSeedScore_scores (st : Sampler) (b t : ℕ) (sc : ℚ) (n : ℕ) (i : ℕ) :
    (updateSeedScore st b t sc n).seedScores i
      = if i = t then
          (1 - st.alpha) * st.seedScores i
            + st.alpha * mergeScore (st.pendingSeedScores b t) (st.pendingSeedSteps b t) sc n
        else st.seedScores i := rfl

lemma pendingUpdate_unseen (st : Sampler) (b t : ℕ) (sc : ℚ) (n : ℕ) (i : ℕ) :
    (pendingUpdateSeedScore st b t sc n).unseen i = st.unseen i := rfl

lemma clearPending_scores (st : Sampler) (i : ℕ) :
    (clearPending st).seedScores i = st.seedScores i := rfl

lemma clearPending_unseen (st : Sampler) (i : ℕ) :
    (clearPending st).unseen i = st.unseen i := rfl

lemma flushCell_seeds (st : Sampler) (b t : ℕ) : (flushCell st b t).seeds = st.seeds := by
  unfold flushCell
  split <;> rfl

lemma flushCell_numActors (st : Sampler) (b t : ℕ) :
    (flushCell st b t).numActors = st.numActors := by
  unfold flushCell
  split <;> rfl

lemma flushCell_alpha (st : Sampler) (b t : ℕ) : (flushCell st b t).alpha = st.alpha := by
  unfold flushCell
  split <;> rfl

lemma flushCell_eq_of_zero (st : Sampler) (b t : ℕ)
    (h : st.pendingSeedScores b t = 0) : flushCell st b t = st := by
  unfold flushCell
  simp [h]

lemma flushCell_pend (st : Sampler) (b t a s : ℕ) :
    (flushCell st b t).pendingSeedScores a s
      = if a = b ∧ s = t then 0 else st.pendingSeedScores a s := by
  unfold flushCell
  by_cases hf : st.pendingSeedScores b t ≠ 0
  · rw [if_pos hf, updateSeedScore_pend]
  · rw [if_neg hf]
    push_neg at hf
    by_cases hab : a = b ∧ s = t
    · rw [if_pos hab, hab.1, hab.2]
      exact hf
    · rw [if_neg hab]

lemma flushCell_unseen (st : Sampler) (b t s : ℕ) :
    (flushCell st b t).unseen s
      = if s = t ∧ st.pendingSeedScores b t ≠ 0 then 0 else st.unseen s := by
  unfold flushCell
  by_cases hf : st.pendingSeedScores b t ≠ 0
  · rw [if_pos hf, updateSeedScore_unseen]
    by_cases hst : s = t
    · simp [hst, hf]
    · simp [hst]
  · rw [if_neg hf]
    simp [hf]

lemma flushCell_scores_other (st : Sampler) (b t s : ℕ) (h : t ≠ s) :
    (flushCell st b t).seedScores s = st.seedScores s := by
  unfold flushCell
  split
  · rw [updateSeedScore_scores, if_neg (fun hst => h hst.symm)]
  · rfl

lemma flushCell_scores_fire (st : Sampler) (b s : ℕ)
    (h : st.pendingSeedScores b s ≠ 0) :
    (flushCell st b s).seedScores s
      = (1 - st.alpha) * st.seedScores s + st.alpha * st.pendingSeedScores b s := by
  unfold flushCell
  rw [if_pos h, updateSeedScore_scores, if_pos rfl, mergeScore_zero]

lemma flushCells_seeds (b : ℕ) : ∀ (l : List ℕ) (st : Sampler),
    (flushCells st b l).seeds = st.seeds := by
  intro l
  induction l with
  | nil => intro st; rfl
  | cons h t ih =>
    intro st
    show (flushCells (flushCell st b h) b t).seeds = st.seeds
    rw [ih, flushCell_seeds]

lemma flushCells_numActors (b : ℕ) : ∀ (l : List ℕ) (st : Sampler),
    (flushCells st b l).numActors = st.numActors := by
  intro l
  induction l with
  | nil => intro st; rfl
  | cons h t ih =>
    intro st
    show (flushCells (flushCell st b h) b t).numActors = st.numActors
    rw [ih, flushCell_numActors]

lemma flushCells_alpha (b : ℕ) : ∀ (l : List ℕ) (st : Sampler),
    (flushCells st b l).alpha = st.alpha := by
  intro l
  induction l with
  | nil => intro st; rfl
  | cons h t ih =>
    intro st
    show (flushCells (flushCell st b h) b t).alpha = st.alpha
    rw [ih, flushCell_alpha]

lemma flushCells_pend (b a s : ℕ) : ∀ (l : List ℕ) (st : Sampler),
    (flushCells st b l).pendingSeedScores a s
      = if a = b ∧ s ∈ l then 0 else st.pendingSeedScores a s := by
  intro l
  induction l with
  | nil => intro st; simp [flushCells]
  | cons h t ih =>
    intro st
    show (flushCells (flushCell st b h) b t).pendingSeedScores a s = _
    rw [ih, flushCell_pend]
    by_cases hab : a = b
    · by_cases hmem : s ∈ t
      · simp [hab, hmem]
      · by_cases hsh : s = h
        · simp [hab, hmem, hsh]
        · simp [hab, hmem, hsh]
    · simp [hab]

lemma flushCells_unseen (b s : ℕ) : ∀ (l : List ℕ) (st : Sampler),
    (flushCells st b l).unseen s
      = if s ∈ l ∧ st.pendingSeedScores b s ≠ 0 then 0 else st.unseen s := by
  intro l
  induction l with
  | nil => intro st; simp [flushCells]
  | cons h t ih =>
    intro st
    show (flushCells (flushCell st b h) b t).unseen s = _
    rw [ih, flushCell_pend, flushCell_unseen]
    by_cases hsh : s = h
    · subst hsh
      simp only [and_self, if_pos (And.intro rfl rfl)]
      by_cases hf : st.pendingSeedScores b s ≠ 0
      · simp [hf]
      · push_neg at hf
        simp [hf]
    · have hc : ¬ (s = h ∧ st.pendingSeedScores b h ≠ 0) := fun hx => hsh hx.1
      have hc2 : ¬ ((b : ℕ) = b ∧ s = h) := fun hx => hsh hx.2
      rw [if_neg hc, if_neg hc2]
      by_cases hmem : s ∈ t
      · simp [hmem, hsh]
      · simp [hmem, hsh]

lemma flushCells_scores_not_mem (b s : ℕ) : ∀ (l : List ℕ) (st : Sampler), s ∉ l →
    (flushCells st b l).seedScores s = st.seedScores s := by
  intro l
  induction l with
  | nil => intro st _; rfl
  | cons h t ih =>
    intro st hmem
    have hsh : h ≠ s := fun hx => hmem (hx ▸ List.mem_cons_self h t)
    have hmt : s ∉ t := fun hx => hmem (List.mem_cons_of_mem h hx)
    show (flushCells (flushCell st b h) b t).seedScores s = st.seedScores s
    rw [ih _ hmt, flushCell_scores_other st b h s hsh]

lemma flushCells_scores_zero (b s : ℕ) : ∀ (l : List ℕ) (st : Sampler),
    st.pendingSeedScores b s = 0 →
    (flushCells st b l).seedScores s = st.seedScores s := by
  intro l
  induction l with
  | nil => intro st _; rfl
  | cons h t ih =>
    intro st hz
    show (flushCells (flushCell st b h) b t).seedScores s = st.seedScores s
    by_cases hsh : h = s
    · subst hsh
      rw [flushCell_eq_of_zero st b h hz]
      exact ih st hz
    · have h1 : (flushCell st b h).pendingSeedScores b s = 0 := by
        rw [flushCell_pend]
        by_cases hc : (b : ℕ) = b ∧ s = h
        · simp [hc]
        · rw [if_neg hc]; exact hz
      rw [ih _ h1, flushCell_scores_other st b h s hsh]

lemma flushCells_scores_fire (b s : ℕ) : ∀ (l : List ℕ) (st : Sampler),
    l.Nodup → s ∈ l → st.pendingSeedScores b s ≠ 0 →
    (flushCells st b l).seedScores s
      = (1 - st.alpha) * st.seedScores s + st.alpha * st.pendingSeedScores b s := by
  intro l
  induction l with
  | nil => intro st _ hmem _; exact absurd hmem (List.not_mem_nil s)
  | cons h t ih =>
    intro st hnd hmem hf
    have hnd1 : h ∉ t := (List.nodup_cons.mp hnd).1
    have hnd2 : t.Nodup := (List.nodup_cons.mp hnd).2
    show (flushCells (flushCell st b h) b t).seedScores s = _
    by_cases hsh : h = s
    · subst hsh
      rw [flushCells_scores_not_mem b h t _ hnd1, flushCell_scores_fire st b h hf]
    · have hmt : s ∈ t := by
        rcases List.mem_cons.mp hmem with hx | hx
        · exact absurd hx.symm hsh
        · exact hx
      have h1 : (flushCell st b h).pendingSeedScores b s = st.pendingSeedScores b s := by
        rw [flushCell_pend]
        have : ¬ ((b : ℕ) = b ∧ s = h) := fun hx => hsh hx.2.symm
        rw [if_neg this]
      rw [ih _ hnd2 hmt (by rw [h1]; exact hf)]
      rw [h1, flushCell_alpha, flushCell_scores_other st b h s hsh]

lemma flushRow_seeds (st : Sampler) (b : ℕ) : (flushRow st b).seeds = st.seeds :=
  flushCells_seeds b _ st

lemma flushRow_numSeeds (st : Sampler) (b : ℕ) :
    (flushRow st b).numSeeds = st.numSeeds := by
  unfold Sampler.numSeeds
  rw [flushRow_seeds]

lemma flushRow_numActors (st : Sampler) (b : ℕ) :
    (flushRow st b).numActors = st.numActors :=
  flushCells_numActors b _ st

lemma flushRow_alpha (st : Sampler) (b : ℕ) : (flushRow st b).alpha = st.alpha :=
  flushCells_alpha b _ st

lemma flushRow_pend (st : Sampler) (b a s : ℕ) :
    (flushRow st b).pendingSeedScores a s
      = if a = b ∧ s ∈ List.range st.numSeeds then 0 else st.pendingSeedScores a s :=
  flushCells_pend b a s _ st

lemma flushRow_unseen (st : Sampler) (b s : ℕ) (hs : s < st.numSeeds) :
    (flushRow st b).unseen s
      = if st.pendingSeedScores b s ≠ 0 then 0 else st.unseen s := by
  unfold flushRow
  rw [flushCells_unseen]
  simp [List.mem_range.mpr hs]

lemma flushRow_scores_zero (st : Sampler) (b s : ℕ)
    (h : st.pendingSeedScores b s = 0) :
    (flushRow st b).seedScores s = st.seedScores s :=
  flushCells_scores_zero b s _ st h

lemma flushRow_scores_fire (st : Sampler) (b s : ℕ) (hs : s < st.numSeeds)
    (hf : st.pendingSeedScores b s ≠ 0) :
    (flushRow st b).seedScores s
      = (1 - st.alpha) * st.seedScores s + st.alpha * st.pendingSeedScores b s :=
  flushCells_scores_fire b s _ st (List.nodup_range _) (List.mem_range.mpr hs) hf

lemma flushRows_seeds : ∀ (al : List ℕ) (st : Sampler),
    (flushRows st al).seeds = st.seeds := by
  intro al
  induction al with
  | nil => intro st; rfl
  | cons b0 t ih =>
    intro st
    show (flushRows (flushRow st b0) t).seeds = st.seeds
    rw [ih, flushRow_seeds]

lemma flushRows_numSeeds (al : List ℕ) (st : Sampler) :
    (flushRows st al).numSeeds = st.numSeeds := by
  unfold Sampler.numSeeds
  rw [flushRows_seeds]

lemma flushRows_alpha : ∀ (al : List ℕ) (st : Sampler),
    (flushRows st al).alpha = st.alpha := by
  intro al
  induction al with
  | nil => intro st; rfl
  | cons b0 t ih =>
    intro st
    show (flushRows (flushRow st b0) t).alpha = st.alpha
    rw [ih, flushRow_alpha]

lemma flushRows_scores_allzero (s : ℕ) : ∀ (al : List ℕ) (st : Sampler),
    (∀ b ∈ al, st.pendingSeedScores b s = 0) →
    (flushRows st al).seedScores s = st.seedScores s := by
  intro al
  induction al with
  | nil => intro st _; rfl
  | cons b0 t ih =>
    intro st hall
    have h0 : st.pendingSeedScores b0 s = 0 := hall b0 (List.mem_cons_self b0 t)
    have hz : ∀ b ∈ t, (flushRow st b0).pendingSeedScores b s = 0 := by
      intro b hb
      rw [flushRow_pend]
      by_cases hc : b = b0 ∧ s ∈ List.range st.numSeeds
      · rw [if_pos hc]
      · rw [if_neg hc]
        exact hall b (List.mem_cons_of_mem b0 hb)
    show (flushRows (flushRow st b0) t).seedScores s = st.seedScores s
    rw [ih _ hz, flushRow_scores_zero st b0 s h0]

lemma flushRows_scores_single (a s : ℕ) : ∀ (al : List ℕ) (st : Sampler),
    al.Nodup → a ∈ al → s < st.numSeeds →
    st.pendingSeedScores a s ≠ 0 →
    (∀ b ∈ al, b ≠ a → st.pendingSeedScores b s = 0) →
    (flushRows st al).seedScores s
      = (1 - st.alpha) * st.seedScores s + st.alpha * st.pendingSeedScores a s := by
  intro al
  induction al with
  | nil => intro st _ hmem _ _ _; exact absurd hmem (List.not_mem_nil a)
  | cons b0 t ih =>
    intro st hnd hmem hs hf hoth
    have hnd1 : b0 ∉ t := (List.nodup_cons.mp hnd).1
    have hnd2 : t.Nodup := (List.nodup_cons.mp hnd).2
    show (flushRows (flushRow st b0) t).seedScores s = _
    by_cases hb0 : b0 = a
    · subst hb0
      have hfire := flushRow_scores_fire st b0 s hs hf
      have hz : ∀ b ∈ t, (flushRow st b0).pendingSeedScores b s = 0 := by
        intro b hb
        have hbne : b ≠ b0 := fun hx => hnd1 (hx ▸ hb)
        rw [flushRow_pend, if_neg (fun hx => hbne hx.1)]
        exact hoth b (List.mem_cons_of_mem b0 hb) hbne
      rw [flushRows_scores_allzero s t _ hz, hfire]
    · have h0 : st.pendingSeedScores b0 s = 0 :=
        hoth b0 (List.mem_cons_self b0 t) hb0
      have hmemt : a ∈ t := by
        rcases List.mem_cons.mp hmem with hx | hx
        · exact absurd hx.symm hb0
        · exact hx
      have hsc : (flushRow st b0).seedScores s = st.seedScores s :=
        flushRow_scores_zero st b0 s h0
      have hpa : (flushRow st b0).pendingSeedScores a s = st.pendingSeedScores a s := by
        rw [flushRow_pend, if_neg (fun hx => hb0 hx.1.symm)]
      have hoth' : ∀ b ∈ t, b ≠ a → (flushRow st b0).pendingSeedScores b s = 0 := by
        intro b hb hbne
        rw [flushRow_pend]
        by_cases hc : b = b0 ∧ s ∈ List.range st.numSeeds
        · rw [if_pos hc]
        · rw [if_neg hc]
          exact hoth b (List.mem_cons_of_mem b0 hb) hbne
      have hs1 : s < (flushRow st b0).numSeeds := by
        rw [flushRow_numSeeds]
        exact hs
      have hf1 : (flushRow st b0).pendingSeedScores a s ≠ 0 := by
        rw [hpa]
        exact hf
      rw [ih _ hnd2 hmemt hs1 hf1 hoth', hpa, hsc, flushRow_alpha]

/-- Claim C7 (amended): if before `after_update()` the `(a, s)` accumulator
holds a nonzero partial score with positive step count and no other worker
holds a nonzero partial score for seed `s`, then afterwards the accumulator
is exactly (0, 0) and `seed_scores[s]` has received exactly one EMA step
with the partial value.  (A pending partial whose merged score is exactly 0
is skipped by the `!= 0` guard and discarded without an EMA step.) -/
theorem c7_after_update_flush_amended (st : Sampler) (a s : ℕ)
    (ha : a < st.numActors) (hs : s < st.numSeeds)
    (hp : st.pendingSeedScores a s ≠ 0) (_hn : 0 < st.pendingSeedSteps a s)
    (hoth : ∀ b < st.numActors, b ≠ a → st.pendingSeedScores b s = 0) :
    (afterUpdate st).pendingSeedScores a s = 0 ∧
    (afterUpdate st).pendingSeedSteps a s = 0 ∧
    (afterUpdate st).seedScores s
      = (1 - st.alpha) * st.seedScores s + st.alpha * st.pendingSeedScores a s := by
  refine ⟨rfl, rfl, ?_⟩
  show (clearPending (flushRows st (List.range st.numActors))).seedScores s = _
  rw [clearPending_scores]
  exact flushRows_scores_single a s (List.range st.numActors) st (List.nodup_range _)
    (List.mem_range.mpr ha) hs hp
    (fun b hb hbne => hoth b (List.mem_range.mp hb) hbne)

/-- One actor, one seed already scored (EMA value 4), a pending partial with
score 2 over 3 steps, α = 1/2. -/
def nonzeroPendingState : Sampler :=
  { baseSampler with
    alpha := 1/2
    seedScores := fun _ => 4
    pendingSeedScores := fun a s => if a = 0 ∧ s = 0 then 2 else 0
    pendingSeedSteps := fun a s => if a = 0 ∧ s = 0 then 3 else 0 }

/-- Witness for C7 (amended) at the concrete state: after the flush the
accumulator is (0, 0) and `seed_scores[0] = (1 - 1/2)·4 + (1/2)·2`. -/
theorem c7_after_update_flush_amended_witness :
    (afterUpdate nonzeroPendingState).pendingSeedScores 0 0 = 0 ∧
    (afterUpdate nonzeroPendingState).pendingSeedSteps 0 0 = 0 ∧
    (afterUpdate nonzeroPendingState).seedScores 0
      = (1 - nonzeroPendingState.alpha) * nonzeroPendingState.seedScores 0
        + nonzeroPendingState.alpha * nonzeroPendingState.pendingSeedScores 0 0 :=
  c7_after_update_flush_amended nonzeroPendingState 0 0 (by decide) (by decide)
    (by decide) (by decide)
    (by
      intro b hb hbne
      have h1 : nonzeroPendingState.numActors = 1 := rfl
      rw [h1] at hb
      exact absurd (by omega : b = 0) hbne)

/-- One actor, seed 0 already scored (EMA value 1), a pending partial with
merged score exactly 0 over 3 steps, α = 1/2. -/
def zeroPendingState : Sampler :=
  { baseSampler with
    alpha := 1/2
    seedScores := fun _ => 1
    pendingSeedSteps := fun a s => if a = 0 ∧ s = 0 then 3 else 0 }

/-- Counterexample for C7 as stated: the (0, 0) accumulator holds partial
score 0 with step count 3 > 0, but `after_update()` leaves
`seed_scores[0] = 1` instead of applying the EMA step
`(1 - 1/2)·1 + (1/2)·0 = 1/2` — the zero-score partial is silently
discarded by the `!= 0` guard. -/
theorem c7_after_update_flush_cex :
    0 < zeroPendingState.pendingSeedSteps 0 0 ∧
    (afterUpdate zeroPendingState).seedScores 0 = 1 ∧
    (1 - zeroPendingState.alpha) * zeroPendingState.seedScores 0
        + zeroPendingState.alpha * zeroPendingState.pendingSeedScores 0 0 = 1/2 ∧
    (afterUpdate zeroPendingState).seedScores 0
      ≠ (1 - zeroPendingState.alpha) * zeroPendingState.seedScores 0
        + zeroPendingState.alpha * zeroPendingState.pendingSeedScores 0 0 := by
  have hall : ∀ b ∈ List.range zeroPendingState.numActors,
      zeroPendingState.pendingSeedScores b 0 = 0 := by
    intro b _
    rfl
  have hsc : (afterUpdate zeroPendingState).seedScores 0 = 1 := by
    show (clearPending (flushRows zeroPendingState
      (List.range zeroPendingState.numActors))).seedScores 0 = 1
    rw [clearPending_scores, flushRows_scores_allzero 0 _ _ hall]
    rfl
  have hval : (1 - zeroPendingState.alpha) * zeroPendingState.seedScores 0
      + zeroPendingState.alpha * zeroPendingState.pendingSeedScores 0 0 = 1/2 := by
    norm_num [zeroPendingState, baseSampler, initSampler]
  refine ⟨by decide, hsc, hval, ?_⟩
  rw [hsc, hval]
  norm_num

lemma updateStaleness_seeds (st : Sampler) (idx : ℕ) :
    (updateStaleness st idx).seeds = st.seeds := by
  unfold updateStaleness
  split <;> rfl

lemma updateStaleness_unseen (st : Sampler) (idx s : ℕ) :
    (updateStaleness st idx).unseen s = st.unseen s := by
  unfold updateStaleness
  split <;> rfl

lemma sampleStep_seeds (st : Sampler) (r : ℚ) (idx : ℕ) :
    ((sampleStep st r idx).1).seeds = st.seeds := by
  unfold sampleStep
  by_cases h1 : st.strategy = "random"
  · rw [if_pos h1]
  · rw [if_neg h1]
    by_cases h2 : st.strategy = "sequential"
    · rw [if_pos h2]
    · rw [if_neg h2]
      cases sampleBranch st r
      · exact updateStaleness_seeds st idx
      · exact updateStaleness_seeds st idx

lemma sampleStep_unseen (st : Sampler) (r : ℚ) (idx s : ℕ) :
    ((sampleStep st r idx).1).unseen s = st.unseen s := by
  unfold sampleStep
  by_cases h1 : st.strategy = "random"
  · rw [if_pos h1]
  · rw [if_neg h1]
    by_cases h2 : st.strategy = "sequential"
    · rw [if_pos h2]
    · rw [if_neg h2]
      cases sampleBranch st r
      · exact updateStaleness_unseen st idx s
      · exact updateStaleness_unseen st idx s

lemma flushRows_unseen (s : ℕ) : ∀ (al : List ℕ) (st : Sampler), s < st.numSeeds →
    (flushRows st al).unseen s
      = if (∃ b ∈ al, st.pendingSeedScores b s ≠ 0) then 0 else st.unseen s := by
  intro al
  induction al with
  | nil =>
    intro st _
    simp [flushRows]
  | cons b0 t ih =>
    intro st hs
    have hu1 : (flushRow st b0).unseen s
        = if st.pendingSeedScores b0 s ≠ 0 then 0 else st.unseen s :=
      flushRow_unseen st b0 s hs
    have hpend0 : (flushRow st b0).pendingSeedScores b0 s = 0 := by
      rw [flushRow_pend, if_pos ⟨rfl, List.mem_range.mpr hs⟩]
    have hpendo : ∀ b, b ≠ b0 →
        (flushRow st b0).pendingSeedScores b s = st.pendingSeedScores b s := by
      intro b hb
      rw [flushRow_pend, if_neg (fun hx => hb hx.1)]
    have hs1 : s < (flushRow st b0).numSeeds := by
      rw [flushRow_numSeeds]
      exact hs
    show (flushRows (flushRow st b0) t).unseen s = _
    rw [ih _ hs1]
    by_cases hc0 : st.pendingSeedScores b0 s ≠ 0
    · have hR : ∃ b ∈ b0 :: t, st.pendingSeedScores b s ≠ 0 :=
        ⟨b0, List.mem_cons_self b0 t, hc0⟩
      rw [if_pos hR]
      by_cases hEx : ∃ b ∈ t, (flushRow st b0).pendingSeedScores b s ≠ 0
      · rw [if_pos hEx]
      · rw [if_neg hEx, hu1, if_pos hc0]
    · push_neg at hc0
      have hiff : (∃ b ∈ t, (flushRow st b0).pendingSeedScores b s ≠ 0)
          ↔ (∃ b ∈ t, st.pendingSeedScores b s ≠ 0) := by
        constructor
        · rintro ⟨b, hb, hne⟩
          by_cases hbb : b = b0
          · subst hbb
            exact absurd hpend0 hne
          · rw [hpendo b hbb] at hne
            exact ⟨b, hb, hne⟩
        · rintro ⟨b, hb, hne⟩
          by_cases hbb : b = b0
          · subst hbb
            exact absurd hc0 hne
          · refine ⟨b, hb, ?_⟩
            rw [hpendo b hbb]
            exact hne
      by_cases hEx : ∃ b ∈ t, st.pendingSeedScores b s ≠ 0
      · rcases hEx with ⟨b, hb, hne⟩
        rw [if_pos (hiff.mpr ⟨b, hb, hne⟩),
          if_pos (⟨b, List.mem_cons_of_mem b0 hb, hne⟩ :
            ∃ x ∈ b0 :: t, st.pendingSeedScores x s ≠ 0)]
      · have hR : ¬ ∃ b ∈ b0 :: t, st.pendingSeedScores b s ≠ 0 := by
          rintro ⟨b, hb, hne⟩
          rcases List.mem_cons.mp hb with hx | hx
          · subst hx
            exact hne hc0
          · exact hEx ⟨b, hx, hne⟩
        rw [if_neg (fun hx => hEx (hiff.mp hx)), if_neg hR, hu1,
          if_neg (by simp [hc0])]

lemma afterUpdate_unseen (st : Sampler) (s : ℕ) (hs : s < st.numSeeds) :
    (afterUpdate st).unseen s
      = if (∃ b ∈ List.range st.numActors, st.pendingSeedScores b s ≠ 0) then 0
        else st.unseen s := by
  show (clearPending (flushRows st (List.range st.numActors))).unseen s = _
  rw [clearPending_unseen]
  exact flushRows_unseen s (List.range st.numActors) st hs

lemma applyOp_seeds (st : Sampler) (op : LedgerOp) : (applyOp st op).seeds = st.seeds := by
  cases op with
  | finalize a s sc n => rfl
  | pendingUp a s sc n => rfl
  | afterUp =>
    show (clearPending (flushRows st (List.range st.numActors))).seeds = st.seeds
    exact flushRows_seeds (List.range st.numActors) st
  | sampleOp r idx => exact sampleStep_seeds st r idx

lemma applyOp_unseen (st : Sampler) (op : LedgerOp) (s : ℕ) (hs : s < st.numSeeds) :
    (applyOp st op).unseen s = if opClears st s op = true then 0 else st.unseen s := by
  cases op with
  | finalize b t sc n =>
    show (updateSeedScore st b t sc n).unseen s = _
    rw [updateSeedScore_unseen]
    simp only [opClears]
    by_cases hst : t = s
    · simp [hst]
    · have h1 : ¬ (s = t) := fun hx => hst hx.symm
      simp [hst, h1]
  | pendingUp b t sc n =>
    show (pendingUpdateSeedScore st b t sc n).unseen s = _
    rw [pendingUpdate_unseen]
    simp [opClears]
  | afterUp =>
    show (afterUpdate st).unseen s = _
    rw [afterUpdate_unseen st s hs]
    simp only [opClears]
    by_cases hEx : ∃ b ∈ List.range st.numActors, st.pendingSeedScores b s ≠ 0
    · rw [if_pos hEx]
      have hany : (List.range st.numActors).any
          (fun b => decide (st.pendingSeedScores b s ≠ 0)) = true := by
        rw [List.any_eq_true]
        rcases hEx with ⟨b, hb, hne⟩
        exact ⟨b, hb, by simpa using hne⟩
      simp only [hany, if_true]
    · rw [if_neg hEx]
      have hany : (List.range st.numActors).any
          (fun b => decide (st.pendingSeedScores b s ≠ 0)) = false := by
        rw [← Bool.not_eq_true, List.any_eq_true]
        rintro ⟨b, hb, hne⟩
        exact hEx ⟨b, hb, by simpa using hne⟩
      simp only [hany]
      simp
  | sampleOp r idx =>
    show ((sampleStep st r idx).1).unseen s = _
    rw [sampleStep_unseen]
    simp [opClears]

lemma unseen_zero_persist : ∀ (ops : List LedgerOp) (st : Sampler) (s : ℕ),
    s < st.numSeeds → st.unseen s = 0 → (runOps st ops).unseen s = 0 := by
  intro ops
  induction ops with
  | nil => intro st s _ h0; exact h0
  | cons op rest ih =>
    intro st s hs h0
    have hs1 : s < (applyOp st op).numSeeds := by
      unfold Sampler.numSeeds
      rw [applyOp_seeds]
      exact hs
    have h1 : (applyOp st op).unseen s = 0 := by
      rw [applyOp_unseen st op s hs]
      split
      · rfl
      · exact h0
    exact ih (applyOp st op) s hs1 h1

lemma unseen_characterize : ∀ (ops : List LedgerOp) (st : Sampler) (s : ℕ),
    s < st.numSeeds →
    (runOps st ops).unseen s = if everClears st s ops = true then 0 else st.unseen s := by
  intro ops
  induction ops with
  | nil => intro st s _; simp [runOps, everClears]
  | cons op rest ih =>
    intro st s hs
    have hs1 : s < (applyOp st op).numSeeds := by
      unfold Sampler.numSeeds
      rw [applyOp_seeds]
      exact hs
    show (runOps (applyOp st op) rest).unseen s = _
    by_cases hc : opClears st s op = true
    · have hu : (applyOp st op).unseen s = 0 := by
        rw [applyOp_unseen st op s hs, if_pos hc]
      rw [unseen_zero_persist rest _ s hs1 hu]
      have hever : everClears st s (op :: rest) = true := by
        simp [everClears, hc]
      rw [hever]
      simp
    · have hcf : opClears st s op = false := by
        simpa using hc
      have hu : (applyOp st op).unseen s = st.unseen s := by
        rw [applyOp_unseen st op s hs, if_neg hc]
      rw [ih _ s hs1, hu]
      have hever : everClears st s (op :: rest) = everClears (applyOp st op) s rest := by
        simp [everClears, hcf]
      rw [hever]

/-- Claim C6 (amended): starting from the freshly constructed sampler,
`unseen[s]` equals 1 until the trace first clears it — by a completed
episode finalized on seed s, OR by an `after_update` performed while some
worker held a nonzero partial score for s — and equals 0 from then on;
no operation ever sets it back to 1. -/
theorem c6_unseen_clear_characterization
    (sd : List ℤ) (na : ℕ) (stg rs sct : String) (tmp ep rh nv al sc : ℚ)
    (stt : String) (stp : ℚ) (ops : List LedgerOp) (s : ℕ)
    (hs : s < (initSampler sd na stg rs sct tmp ep rh nv al sc stt stp).numSeeds) :
    (runOps (initSampler sd na stg rs sct tmp ep rh nv al sc stt stp) ops).unseen s
      = if everClears (initSampler sd na stg rs sct tmp ep rh nv al sc stt stp) s ops = true
        then 0 else 1 := by
  rw [unseen_characterize ops _ s hs]
  split <;> rfl

lemma pendingUpdate_pend (st : Sampler) (b t : ℕ) (sc : ℚ) (n : ℕ) (a s : ℕ) :
    (pendingUpdateSeedScore st b t sc n).pendingSeedScores a s
      = if a = b ∧ s = t then
          mergeScore (st.pendingSeedScores b t) (st.pendingSeedSteps b t) sc n
        else st.pendingSeedScores a s := rfl

/-- Witness for C6 (amended): a finalized episode on seed 0 clears the flag. -/
theorem c6_unseen_clear_characterization_witness :
    (runOps (initSampler [0] 1 "value_l1" "fixed" "power" 1 (1/20) (1/5) (1/2) 1 0 "power" 1)
        [LedgerOp.finalize 0 0 5 2]).unseen 0
      = if everClears
            (initSampler [0] 1 "value_l1" "fixed" "power" 1 (1/20) (1/5) (1/2) 1 0 "power" 1)
            0 [LedgerOp.finalize 0 0 5 2] = true
        then 0 else 1 :=
  c6_unseen_clear_characterization [0] 1 "value_l1" "fixed" "power" 1 (1/20) (1/5) (1/2) 1 0
    "power" 1 [LedgerOp.finalize 0 0 5 2] 0 (by decide)

/-- Counterexample for C6 as stated: a trace with a partial update for seed 0
followed by `after_update()` contains no completed-episode finalization for
seed 0, yet afterwards `unseen[0] = 0`, not 1. -/
theorem c6_unseen_cleared_without_episode_cex :
    (runOps baseSampler [LedgerOp.pendingUp 0 0 1 1, LedgerOp.afterUp]).unseen 0 = 0 ∧
    completesEpisode 0 (LedgerOp.pendingUp 0 0 1 1) = false ∧
    completesEpisode 0 LedgerOp.afterUp = false := by
  refine ⟨?_, rfl, rfl⟩
  have hp : (pendingUpdateSeedScore baseSampler 0 0 1 1).pendingSeedScores 0 0 = 1 := by
    rw [pendingUpdate_pend]
    norm_num [mergeScore, baseSampler, initSampler]
  have hclears : everClears baseSampler 0
      [LedgerOp.pendingUp 0 0 1 1, LedgerOp.afterUp] = true := by
    show (opClears baseSampler 0 (LedgerOp.pendingUp 0 0 1 1)
        || (opClears (applyOp baseSampler (LedgerOp.pendingUp 0 0 1 1)) 0 LedgerOp.afterUp
            || false)) = true
    rw [Bool.or_false]
    rw [show opClears baseSampler 0 (LedgerOp.pendingUp 0 0 1 1) = false from rfl]
    rw [Bool.false_or]
    show (List.range (applyOp baseSampler (LedgerOp.pendingUp 0 0 1 1)).numActors).any
        (fun b => decide ((applyOp baseSampler
          (LedgerOp.pendingUp 0 0 1 1)).pendingSeedScores b 0 ≠ 0)) = true
    rw [List.any_eq_true]
    refine ⟨0, ?_, ?_⟩
    · rw [show (applyOp baseSampler (LedgerOp.pendingUp 0 0 1 1)).numActors = 1 from rfl]
      decide
    · rw [decide_eq_true_eq]
      show ¬ (pendingUpdateSeedScore baseSampler 0 0 1 1).pendingSeedScores 0 0 = 0
      rw [hp]
      norm_num
  rw [unseen_characterize [LedgerOp.pendingUp 0 0 1 1, LedgerOp.afterUp] baseSampler 0
    (by decide)]
  rw [hclears]
  simp
